import Mathlib

/-!
Verification of the Knowledge Base export utility
(scripts/export-knowledge-data.js).

The script's three functions are embedded shallowly:

* jsonToCsv       (js lines 29-59)  : records → delimited text
* generateSummary (js lines 64-110) : records → aggregate summary
* exportKnowledgeData (js lines 129-177) : top-level run with its
  error handling (missing input file, JSON parse failure, dynamic
  type errors on a non-array parse result).

Modelling conventions:

* Text is List Char.  A JS object is modelled as an ordered
  association list from field name to scalar value; property access
  on a missing key yields Option.none (JS undefined).  Prototype
  chain effects are out of scope.
* JS scalars are the inductive Value below; Option Value adds the
  absent (undefined) case.
* The JS Date constructor (applied inside generateSummary) is a
  built-in, not repository code; it is abstracted as a parameter
  pd : Value → Option Int, where none models an Invalid Date (NaN
  timestamp).  All comparisons involving NaN are false, matching JS.
* Wall-clock data (the exportDate field of the summary, log
  timestamps) and the best-effort log file are not modelled: no
  claim mentions them.
* The RFC-4180 row parser (parseRow below) is the one definition
  written from the specification's words rather than from the
  source: the round-trip claim compares the source's rendering
  against a standard delimited-text parser.
-/

/-- A JS scalar value as found in the exported article records:
string, number, boolean, or null.  Numbers are modelled as integers;
no claim depends on non-integral numerics. -/
inductive Value where
  | str : List Char → Value
  | num : Int → Value
  | bool : Bool → Value
  | null : Value
deriving DecidableEq

/-- A flat article record: an ordered mapping from field name to
scalar value (JS object as ordered dictionary). -/
abbrev Record := List (List Char × Value)

/-- JS property access article[h]: the value stored under the field
name, or none (undefined) when the field is absent.  JS objects
cannot hold duplicate keys, so first-match lookup is exact. -/
def jsGet : Record → List Char → Option Value
  | [], _ => none
  | (k, v) :: rest, h => if k = h then some v else jsGet rest h

/-- JS truthiness of a scalar: null, false, 0 and the empty string
are falsy, everything else is truthy. -/
def truthy : Value → Bool
  | Value.null => false
  | Value.bool b => b
  | Value.num n => if n = 0 then false else true
  | Value.str s => if s = [] then false else true

/-- JS truthiness including the absent (undefined) case. -/
def truthyOpt : Option Value → Bool
  | none => false
  | some v => truthy v

/-- JS String(value) for a scalar value. -/
def jsString : Value → List Char
  | Value.str s => s
  | Value.num n => (toString n).toList
  | Value.bool b => if b then "true".toList else "false".toList
  | Value.null => "null".toList

/-- JS property-key coercion String(x) applied to a possibly absent
value: an absent field keys the literal text undefined, a null field
the literal text null. -/
def jsKey : Option Value → List Char
  | none => "undefined".toList
  | some v => jsString v

/-- JS includes on a character: does the text contain the character. -/
def hasChar (s : List Char) (c : Char) : Bool :=
  match s with
  | [] => false
  | x :: rest => if x = c then true else hasChar rest c

/-- The js replace of every double quote by two double quotes
(line 49: String(value).replace of quote by doubled quote). -/
def doubleQuotes : List Char → List Char
  | [] => []
  | c :: rest =>
      if c = '"' then '"' :: '"' :: doubleQuotes rest
      else c :: doubleQuotes rest

/-- The escaping applied to one already-stringified cell value
(js lines 49-54): double every embedded quote, then wrap in quotes
when the doubled text contains a comma, a quote or a newline. -/
def escapeValue (s : List Char) : List Char :=
  let stringValue := doubleQuotes s
  if hasChar stringValue ',' || hasChar stringValue '"' || hasChar stringValue '\n'
  then '"' :: (stringValue ++ ('"' :: []))
  else stringValue

/-- One rendered CSV cell (js lines 43-54): null and undefined render
as the empty cell, anything else is stringified and escaped. -/
def formatCell : Option Value → List Char
  | none => []
  | some Value.null => []
  | some v => escapeValue (jsString v)

/-- The textual form of a cell before escaping: empty for null or
absent values, String(value) otherwise.  This is what RFC-4180
parsing of the rendered row must recover. -/
def cellText : Option Value → List Char
  | none => []
  | some Value.null => []
  | some v => jsString v

/-- JS Array.join with a separator. -/
def joinSep (sep : List Char) : List (List Char) → List Char
  | [] => []
  | x :: [] => x
  | x :: y :: ys => x ++ sep ++ joinSep sep (y :: ys)

/-- One CSV data row (js lines 42-55): for each header field, fetch
that field from the record, render the cell, join with commas. -/
def csvRow (headers : List (List Char)) (article : Record) : List Char :=
  joinSep (',' :: []) (headers.map (fun h => formatCell (jsGet article h)))

/-- jsonToCsv (js lines 29-59): empty input yields empty text;
otherwise the first record's field names (in order) form the header
row, every record yields one data row over exactly those fields, and
all lines are joined by newlines. -/
def jsonToCsv (articles : List Record) : List Char :=
  match articles with
  | [] => []
  | first :: rest =>
      joinSep ('\n' :: [])
        (joinSep (',' :: []) (first.map Prod.fst)
          :: (first :: rest).map (fun a => csvRow (first.map Prod.fst) a))

/-- Modelled from the spec: the quoted-cell state of a standard
RFC-4180 delimited-text parser.  Consumes characters after an
opening quote; a doubled quote stands for one literal quote, a
single quote closes the cell.  Returns the cell content and the
remaining input, or none for an unterminated quoted cell. -/
def parseQuoted (acc : List Char) : List Char → Option (List Char × List Char)
  | [] => none
  | c :: rest =>
      if c = '"' then
        match rest with
        | c2 :: rest2 =>
            if c2 = '"' then parseQuoted (acc ++ ('"' :: [])) rest2
            else some (acc, rest)
        | [] => some (acc, rest)
      else parseQuoted (acc ++ (c :: [])) rest

/-- Content of an unquoted RFC-4180 cell: everything up to the next
comma. -/
def takeCell : List Char → List Char
  | [] => []
  | c :: rest => if c = ',' then [] else c :: takeCell rest

/-- Remainder after an unquoted RFC-4180 cell: the input from the
next comma on. -/
def dropCell : List Char → List Char
  | [] => []
  | c :: rest => if c = ',' then c :: rest else dropCell rest

/-- Modelled from the spec: one cell of a standard RFC-4180 row.
A cell starting with a quote is parsed as a quoted cell, any other
cell extends to the next comma.  Returns the recovered cell text and
the remaining input (empty, or starting at the separating comma). -/
def parseCell (s : List Char) : List Char × List Char :=
  match s with
  | [] => ([], [])
  | c :: rest =>
      if c = '"' then
        match parseQuoted [] rest with
        | some (cell, rem) => (cell, rem)
        | none => (rest, [])
      else (takeCell s, dropCell s)

/-- Fuel-indexed loop of the RFC-4180 row parser: parse a cell, stop
at end of input, otherwise skip the separating comma and continue. -/
def parseRowFuel : Nat → List Char → List (List Char)
  | 0, _ => []
  | Nat.succ fuel, s =>
      match parseCell s with
      | (cell, []) => cell :: []
      | (cell, _ :: rest) => cell :: parseRowFuel fuel rest

/-- Modelled from the spec: a standard RFC-4180 delimited-text row
parser, splitting one rendered row into its cell texts. -/
def parseRow (s : List Char) : List (List Char) :=
  parseRowFuel (s.length + 1) s

/-- JS object-as-counter update obj[k] = (obj[k] or 0) + 1: bump the
count stored under the key, first insertion appends at the end
(JS objects keep insertion order). -/
def tallyInsert (m : List (List Char × Nat)) (k : List Char) : List (List Char × Nat) :=
  match m with
  | [] => (k, 1) :: []
  | (k', n) :: rest =>
      if k' = k then (k', n + 1) :: rest else (k', n) :: tallyInsert rest k

/-- The count a tally mapping associates with a key (0 when the key
was never inserted). -/
def tallyLookup (m : List (List Char × Nat)) (k : List Char) : Nat :=
  match m with
  | [] => 0
  | (k', n) :: rest => if k' = k then n else tallyLookup rest k

/-- Extensional equality of two tally mappings as Boolean check:
every key of either mapping carries the same count in both. -/
def tallyEquiv (m₁ m₂ : List (List Char × Nat)) : Bool :=
  (m₁ ++ m₂).all (fun p => tallyLookup m₁ p.1 == tallyLookup m₂ p.1)

/-- Sum of all counts of a tally mapping. -/
def sumTally (m : List (List Char × Nat)) : Nat :=
  (m.map Prod.snd).sum

/-- Designated categorical field articleType (js line 84). -/
def articleTypeKey : List Char := "articleType".toList

/-- Designated categorical field language (js line 87). -/
def languageKey : List Char := "language".toList

/-- Designated categorical field publishStatus (js line 90). -/
def publishStatusKey : List Char := "publishStatus".toList

/-- Designated boolean flag isVisibleInPkb (js line 93). -/
def pkbKey : List Char := "isVisibleInPkb".toList

/-- Designated boolean flag isVisibleInCsp (js line 94). -/
def cspKey : List Char := "isVisibleInCsp".toList

/-- Designated boolean flag isVisibleInPrm (js line 95). -/
def prmKey : List Char := "isVisibleInPrm".toList

/-- Designated date field createdDate (js lines 98-105). -/
def createdDateKey : List Char := "createdDate".toList

/-- The summary aggregate built by generateSummary (js lines 65-80).
The exportDate wall-clock field is not modelled.  The dateRange
endpoints hold the retained raw createdDate values (none models the
initial null). -/
structure Summary where
  totalArticles : Nat
  articleTypes : List (List Char × Nat)
  languages : List (List Char × Nat)
  publishStatuses : List (List Char × Nat)
  visibleInPkb : Nat
  visibleInCsp : Nat
  visibleInPrm : Nat
  earliest : Option Value
  latest : Option Value
deriving DecidableEq

/-- The timestamp of a possibly absent raw date value under the
abstract Date parser (none on null/undefined, matching the fact that
such endpoints are only compared through short-circuited guards). -/
def optParse (pd : Value → Option Int) : Option Value → Option Int
  | none => none
  | some v => pd v

/-- JS less-than on two possibly invalid Date timestamps: any
comparison involving an invalid date (NaN) is false. -/
def optLt : Option Int → Option Int → Bool
  | some x, some y => decide (x < y)
  | _, _ => false

/-- JS greater-than on two possibly invalid Date timestamps. -/
def optGt : Option Int → Option Int → Bool
  | some x, some y => decide (x > y)
  | _, _ => false

/-- The earliest-endpoint update for one record (js lines 98-102):
a falsy createdDate is skipped; otherwise the raw value replaces the
current endpoint when the endpoint is still unset or the parsed
timestamp is strictly smaller than the parsed current endpoint. -/
def dateEarliestStep (pd : Value → Option Int) (cur cd : Option Value) : Option Value :=
  if truthyOpt cd then
    (if !truthyOpt cur || optLt (optParse pd cd) (optParse pd cur) then cd else cur)
  else cur

/-- The latest-endpoint update for one record (js lines 98, 103-105). -/
def dateLatestStep (pd : Value → Option Int) (cur cd : Option Value) : Option Value :=
  if truthyOpt cd then
    (if !truthyOpt cur || optGt (optParse pd cd) (optParse pd cur) then cd else cur)
  else cur

/-- The body of the forEach loop of generateSummary (js lines
82-107), written field by field: each iteration bumps the three
categorical tallies under the coerced property key, bumps each
visibility counter when its flag is truthy, and updates the two date
endpoints. -/
def summaryStep (pd : Value → Option Int) (s : Summary) (a : Record) : Summary :=
  { totalArticles := s.totalArticles
    articleTypes := tallyInsert s.articleTypes (jsKey (jsGet a articleTypeKey))
    languages := tallyInsert s.languages (jsKey (jsGet a languageKey))
    publishStatuses := tallyInsert s.publishStatuses (jsKey (jsGet a publishStatusKey))
    visibleInPkb := if truthyOpt (jsGet a pkbKey) then s.visibleInPkb + 1 else s.visibleInPkb
    visibleInCsp := if truthyOpt (jsGet a cspKey) then s.visibleInCsp + 1 else s.visibleInCsp
    visibleInPrm := if truthyOpt (jsGet a prmKey) then s.visibleInPrm + 1 else s.visibleInPrm
    earliest := dateEarliestStep pd s.earliest (jsGet a createdDateKey)
    latest := dateLatestStep pd s.latest (jsGet a createdDateKey) }

/-- generateSummary (js lines 64-110): total count taken up front,
then one pass of summaryStep over the records, starting from empty
tallies, zero counters and null endpoints. -/
def generateSummary (pd : Value → Option Int) (articles : List Record) : Summary :=
  List.foldl (summaryStep pd)
    { totalArticles := articles.length
      articleTypes := []
      languages := []
      publishStatuses := []
      visibleInPkb := 0
      visibleInCsp := 0
      visibleInPrm := 0
      earliest := none
      latest := none }
    articles

/-- The truthy createdDate value of one record, when present. -/
def truthyDate (a : Record) : Option Value :=
  match jsGet a createdDateKey with
  | some v => if truthy v then some v else none
  | none => none

/-- All truthy createdDate values of a record sequence, in order. -/
def truthyDates (l : List Record) : List Value :=
  l.filterMap truthyDate

/-- Running minimum over timestamps, none meaning no timestamp seen
yet. -/
def minStep : Option Int → Int → Option Int
  | none, x => some x
  | some m, x => some (min m x)

/-- Minimum timestamp of a list, seeded by an optional current one. -/
def foldMin (init : Option Int) (l : List Int) : Option Int :=
  List.foldl minStep init l

/-- Running maximum over timestamps. -/
def maxStep : Option Int → Int → Option Int
  | none, x => some x
  | some m, x => some (max m x)

/-- Maximum timestamp of a list, seeded by an optional current one. -/
def foldMax (init : Option Int) (l : List Int) : Option Int :=
  List.foldl maxStep init l

/-- A parsed top-level JSON document, as JSON.parse can return it:
an array of flat records, or a non-array value (null, string,
number, boolean, plain object).  Arrays of non-object elements are
not needed by any claim and are not modelled. -/
inductive JsTop where
  | arr : List Record → JsTop
  | nullV : JsTop
  | strV : List Char → JsTop
  | numV : Int → JsTop
  | boolV : Bool → JsTop
  | obj : JsTop
deriving DecidableEq

/-- jsonToCsv applied to an arbitrary parse result, with JS dynamic
semantics: falsy arguments (null, false, 0, the empty string) take
the early empty-text return of js lines 30-32; a truthy non-array
throws a TypeError (none) while computing the headers or mapping the
rows, since such values lack the needed array methods. -/
def jsonToCsvDyn : JsTop → Option (List Char)
  | JsTop.arr l => some (jsonToCsv l)
  | JsTop.nullV => some []
  | JsTop.boolV b => if b then none else some []
  | JsTop.strV s => if s = [] then some [] else none
  | JsTop.numV n => if n = 0 then some [] else none
  | JsTop.obj => none

/-- generateSummary applied to an arbitrary parse result: every
non-array receiver throws a TypeError (none) at the length access or
the forEach call of js lines 67 and 82. -/
def generateSummaryDyn (pd : Value → Option Int) : JsTop → Option Summary
  | JsTop.arr l => some (generateSummary pd l)
  | _ => none

/-- Observable outcome of one run: the process exit status and the
two load-bearing output files (none when the file was not written). -/
structure Outcome where
  exitCode : Nat
  csvOut : Option (List Char)
  summaryOut : Option Summary
deriving DecidableEq

/-- exportKnowledgeData (js lines 129-177).  The input is the
content of articles.json (none when the file is absent) and the
JSON.parse built-in is the abstract parameter parse (none models a
parse exception).  A missing file exits 1 before any write
(js lines 134-138); a parse exception or any dynamic error is caught
by the try/catch and exits 1 (js lines 172-176); the CSV is written
before the summary is computed (js lines 149-157), so a summary-side
error leaves the CSV written; a full run exits 0. -/
def exportKnowledgeData (pd : Value → Option Int)
    (parse : List Char → Option JsTop) (input : Option (List Char)) : Outcome :=
  match input with
  | none => { exitCode := 1, csvOut := none, summaryOut := none }
  | some text =>
      match parse text with
      | none => { exitCode := 1, csvOut := none, summaryOut := none }
      | some top =>
          match jsonToCsvDyn top with
          | none => { exitCode := 1, csvOut := none, summaryOut := none }
          | some csv =>
              match generateSummaryDyn pd top with
              | none => { exitCode := 1, csvOut := some csv, summaryOut := none }
              | some s => { exitCode := 0, csvOut := some csv, summaryOut := some s }

/-- A concrete Date parser used for witnesses and counterexamples:
the one-character string g is an unparseable (invalid) date, every
other string parses; its timestamp is its length, so longer strings
are later dates. -/
def pdSample : Value → Option Int :=
  fun v =>
    match v with
    | Value.str s => if s = 'g' :: [] then none else some (Int.ofNat s.length)
    | _ => none

/-! ## Properties of the cell escaping -/

theorem hasChar_doubleQuotes (s : List Char) (c : Char) :
    hasChar (doubleQuotes s) c = hasChar s c := by
  induction s with
  | nil => rfl
  | cons x rest ih =>
    by_cases hx : x = '"'
    · subst hx
      by_cases hc : '"' = c <;> simp [doubleQuotes, hasChar, hc, ih]
    · simp only [doubleQuotes, if_neg hx, hasChar]
      by_cases hc : x = c <;> simp [hc, ih]

theorem doubleQuotes_of_no_quote (s : List Char) (h : hasChar s '"' = false) :
    doubleQuotes s = s := by
  induction s with
  | nil => rfl
  | cons x rest ih =>
    simp only [hasChar] at h
    by_cases hx : x = '"'
    · simp [hx] at h
    · simp only [doubleQuotes, if_neg hx]
      rw [ih]
      by_cases h2 : x = '"' <;> simp_all

theorem escapeValue_eq (s : List Char) :
    escapeValue s =
      if hasChar s ',' || hasChar s '"' || hasChar s '\n'
      then '"' :: (doubleQuotes s ++ ('"' :: []))
      else s := by
  unfold escapeValue
  simp only [hasChar_doubleQuotes]
  by_cases h : (hasChar s ',' || hasChar s '"' || hasChar s '\n') = true
  · simp [h]
  · simp only [Bool.not_eq_true] at h
    have hq : hasChar s '"' = false := by
      cases hcq : hasChar s '"' <;> simp_all
    simp [h, doubleQuotes_of_no_quote s hq]

theorem formatCell_eq (ov : Option Value) :
    formatCell ov = escapeValue (cellText ov) := by
  match ov with
  | none => rfl
  | some Value.null => rfl
  | some (Value.str s) => rfl
  | some (Value.num n) => rfl
  | some (Value.bool b) => rfl

/-! ## Round trip of the RFC-4180 row parser against the renderer -/

theorem parseQuoted_cons_other (acc : List Char) (c : Char) (rest : List Char)
    (h : ¬ c = '"') :
    parseQuoted acc (c :: rest) = parseQuoted (acc ++ (c :: [])) rest := by
  rw [parseQuoted.eq_def]
  simp [h]

theorem parseQuoted_quote_quote (acc : List Char) (rest2 : List Char) :
    parseQuoted acc ('"' :: ('"' :: rest2)) = parseQuoted (acc ++ ('"' :: [])) rest2 := by
  rw [parseQuoted.eq_def]
  simp

theorem parseQuoted_quote_other (acc : List Char) (c2 : Char) (rest2 : List Char)
    (h : ¬ c2 = '"') :
    parseQuoted acc ('"' :: (c2 :: rest2)) = some (acc, c2 :: rest2) := by
  rw [parseQuoted.eq_def]
  simp [h]

theorem parseQuoted_quote_nil (acc : List Char) :
    parseQuoted acc ('"' :: []) = some (acc, []) := by
  rw [parseQuoted.eq_def]
  simp

theorem parseQuoted_doubleQuotes (s : List Char) :
    ∀ (acc rest : List Char), (rest = [] ∨ ∃ r, rest = ',' :: r) →
    parseQuoted acc (doubleQuotes s ++ ('"' :: rest)) = some (acc ++ s, rest) := by
  induction s with
  | nil =>
    intro acc rest hrest
    rcases hrest with h | ⟨r, h⟩ <;> subst h
    · simp [doubleQuotes, parseQuoted_quote_nil]
    · simp [doubleQuotes, parseQuoted_quote_other acc ',' r (by decide)]
  | cons x rest' ih =>
    intro acc rest hrest
    by_cases hx : x = '"'
    · subst hx
      simp only [doubleQuotes, if_true, eq_self_iff_true, List.cons_append]
      rw [parseQuoted_quote_quote acc (doubleQuotes rest' ++ ('"' :: rest))]
      rw [ih _ rest hrest]
      simp
    · simp only [doubleQuotes, if_neg hx, List.cons_append]
      rw [parseQuoted_cons_other acc x (doubleQuotes rest' ++ ('"' :: rest)) hx]
      rw [ih _ rest hrest]
      simp

theorem takeCell_append (s t : List Char) (h : hasChar s ',' = false) :
    takeCell (s ++ t) = s ++ takeCell t := by
  induction s with
  | nil => simp
  | cons x rest ih =>
    simp only [hasChar] at h
    by_cases hx : x = ','
    · rw [if_pos hx] at h
      exact absurd h (by simp)
    · rw [if_neg hx] at h
      simp only [List.cons_append, takeCell, if_neg hx, List.append_eq]
      rw [ih h]

theorem dropCell_append (s t : List Char) (h : hasChar s ',' = false) :
    dropCell (s ++ t) = dropCell t := by
  induction s with
  | nil => simp
  | cons x rest ih =>
    simp only [hasChar] at h
    by_cases hx : x = ','
    · rw [if_pos hx] at h
      exact absurd h (by simp)
    · rw [if_neg hx] at h
      simp only [List.cons_append, dropCell, if_neg hx]
      exact ih h

theorem takeCell_sep (rest : List Char) (hrest : rest = [] ∨ ∃ r, rest = ',' :: r) :
    takeCell rest = [] := by
  rcases hrest with h | ⟨r, h⟩ <;> subst h <;> simp [takeCell]

theorem dropCell_sep (rest : List Char) (hrest : rest = [] ∨ ∃ r, rest = ',' :: r) :
    dropCell rest = rest := by
  rcases hrest with h | ⟨r, h⟩ <;> subst h <;> simp [dropCell]

theorem parseCell_unquoted (s rest : List Char)
    (hc : hasChar s ',' = false) (hq : hasChar s '"' = false)
    (hrest : rest = [] ∨ ∃ r, rest = ',' :: r) :
    parseCell (s ++ rest) = (s, rest) := by
  match s with
  | [] =>
    rcases hrest with h | ⟨r, h⟩ <;> subst h
    · rfl
    · rw [parseCell.eq_def]
      simp only [List.nil_append]
      rw [if_neg (by decide : ¬ (',' : Char) = '"')]
      rw [takeCell_sep _ (Or.inr ⟨r, rfl⟩), dropCell_sep _ (Or.inr ⟨r, rfl⟩)]
  | c :: s' =>
    simp only [hasChar] at hc hq
    by_cases hcc : c = ','
    · rw [if_pos hcc] at hc
      exact absurd hc (by simp)
    · rw [if_neg hcc] at hc
      by_cases hcq : c = '"'
      · rw [if_pos hcq] at hq
        exact absurd hq (by simp)
      · rw [if_neg hcq] at hq
        rw [List.cons_append, parseCell.eq_def]
        simp only [if_neg hcq]
        rw [show takeCell (c :: (s' ++ rest)) = c :: takeCell (s' ++ rest) by
              simp [takeCell, hcc]]
        rw [show dropCell (c :: (s' ++ rest)) = dropCell (s' ++ rest) by
              simp [dropCell, hcc]]
        rw [takeCell_append s' rest hc, dropCell_append s' rest hc,
            takeCell_sep rest hrest, dropCell_sep rest hrest]
        simp

theorem parseCell_render (s rest : List Char)
    (hrest : rest = [] ∨ ∃ r, rest = ',' :: r) :
    parseCell (escapeValue s ++ rest) = (s, rest) := by
  rw [escapeValue_eq]
  by_cases h : (hasChar s ',' || hasChar s '"' || hasChar s '\n') = true
  · rw [if_pos h]
    rw [List.cons_append, parseCell.eq_def]
    simp only [if_pos rfl, List.append_assoc, List.cons_append, List.nil_append]
    rw [parseQuoted_doubleQuotes s [] rest hrest]
    simp
  · rw [if_neg h]
    simp only [Bool.not_eq_true, Bool.or_eq_false_iff] at h
    exact parseCell_unquoted s rest h.1.1 h.1.2 hrest

theorem parseRowFuel_round (cells : List (List Char)) :
    ∀ (fuel : Nat), cells ≠ [] →
    (joinSep (',' :: []) (cells.map escapeValue)).length < fuel →
    parseRowFuel fuel (joinSep (',' :: []) (cells.map escapeValue)) = cells := by
  induction cells with
  | nil => intro fuel h _; exact absurd rfl h
  | cons c cs ih =>
    intro fuel _ hfuel
    match cs, fuel with
    | [], Nat.succ f =>
      simp only [List.map, joinSep] at hfuel ⊢
      have h1 : parseCell (escapeValue c) = (c, []) := by
        have := parseCell_render c [] (Or.inl rfl)
        simpa using this
      simp [parseRowFuel, h1]
    | c2 :: cs', Nat.succ f =>
      have hj : joinSep (',' :: []) ((c :: c2 :: cs').map escapeValue)
          = escapeValue c ++ (',' :: joinSep (',' :: []) ((c2 :: cs').map escapeValue)) := by
        simp [joinSep]
      rw [hj] at hfuel ⊢
      have h1 : parseCell (escapeValue c ++ (',' :: joinSep (',' :: []) ((c2 :: cs').map escapeValue)))
          = (c, ',' :: joinSep (',' :: []) ((c2 :: cs').map escapeValue)) :=
        parseCell_render c _ (Or.inr ⟨_, rfl⟩)
      rw [parseRowFuel.eq_def]
      simp only [h1]
      have hlen : (joinSep (',' :: []) ((c2 :: cs').map escapeValue)).length < f := by
        simp only [List.length_append, List.length_cons] at hfuel
        omega
      rw [ih f (by simp) hlen]

theorem parseRow_round (cells : List (List Char)) (h : cells ≠ []) :
    parseRow (joinSep (',' :: []) (cells.map escapeValue)) = cells :=
  parseRowFuel_round cells _ h (Nat.lt_succ_self _)

theorem csvRow_parse (headers : List (List Char)) (a : Record) (h : headers ≠ []) :
    parseRow (csvRow headers a) = headers.map (fun k => cellText (jsGet a k)) := by
  unfold csvRow
  have hmap : headers.map (fun k => formatCell (jsGet a k))
      = (headers.map (fun k => cellText (jsGet a k))).map escapeValue := by
    rw [List.map_map]
    apply List.map_congr_left
    intro k _
    exact formatCell_eq (jsGet a k)
  rw [hmap]
  exact parseRow_round _ (by simpa using h)

/-! ## Componentwise characterization of generateSummary -/

theorem foldl_summaryStep_totalArticles (pd : Value → Option Int)
    (l : List Record) : ∀ (s : Summary),
    (List.foldl (summaryStep pd) s l).totalArticles = s.totalArticles := by
  induction l with
  | nil => intro s; rfl
  | cons a l ih => intro s; rw [List.foldl_cons, ih]; rfl

theorem generateSummary_totalArticles (pd : Value → Option Int) (l : List Record) :
    (generateSummary pd l).totalArticles = l.length := by
  unfold generateSummary
  rw [foldl_summaryStep_totalArticles]

theorem foldl_summaryStep_articleTypes (pd : Value → Option Int)
    (l : List Record) : ∀ (s : Summary),
    (List.foldl (summaryStep pd) s l).articleTypes
      = List.foldl (fun m a => tallyInsert m (jsKey (jsGet a articleTypeKey))) s.articleTypes l := by
  induction l with
  | nil => intro s; rfl
  | cons a l ih => intro s; rw [List.foldl_cons, ih, List.foldl_cons]; rfl

theorem foldl_summaryStep_languages (pd : Value → Option Int)
    (l : List Record) : ∀ (s : Summary),
    (List.foldl (summaryStep pd) s l).languages
      = List.foldl (fun m a => tallyInsert m (jsKey (jsGet a languageKey))) s.languages l := by
  induction l with
  | nil => intro s; rfl
  | cons a l ih => intro s; rw [List.foldl_cons, ih, List.foldl_cons]; rfl

theorem foldl_summaryStep_publishStatuses (pd : Value → Option Int)
    (l : List Record) : ∀ (s : Summary),
    (List.foldl (summaryStep pd) s l).publishStatuses
      = List.foldl (fun m a => tallyInsert m (jsKey (jsGet a publishStatusKey))) s.publishStatuses l := by
  induction l with
  | nil => intro s; rfl
  | cons a l ih => intro s; rw [List.foldl_cons, ih, List.foldl_cons]; rfl

theorem foldl_summaryStep_visibleInPkb (pd : Value → Option Int)
    (l : List Record) : ∀ (s : Summary),
    (List.foldl (summaryStep pd) s l).visibleInPkb
      = s.visibleInPkb + l.countP (fun a => truthyOpt (jsGet a pkbKey)) := by
  induction l with
  | nil => intro s; simp
  | cons a l ih =>
    intro s
    rw [List.foldl_cons, ih, List.countP_cons]
    show (if truthyOpt (jsGet a pkbKey) then s.visibleInPkb + 1 else s.visibleInPkb) + _ = _
    by_cases h : truthyOpt (jsGet a pkbKey) = true
    · simp [h]
      omega
    · simp [h]

theorem foldl_summaryStep_visibleInCsp (pd : Value → Option Int)
    (l : List Record) : ∀ (s : Summary),
    (List.foldl (summaryStep pd) s l).visibleInCsp
      = s.visibleInCsp + l.countP (fun a => truthyOpt (jsGet a cspKey)) := by
  induction l with
  | nil => intro s; simp
  | cons a l ih =>
    intro s
    rw [List.foldl_cons, ih, List.countP_cons]
    show (if truthyOpt (jsGet a cspKey) then s.visibleInCsp + 1 else s.visibleInCsp) + _ = _
    by_cases h : truthyOpt (jsGet a cspKey) = true
    · simp [h]
      omega
    · simp [h]

theorem foldl_summaryStep_visibleInPrm (pd : Value → Option Int)
    (l : List Record) : ∀ (s : Summary),
    (List.foldl (summaryStep pd) s l).visibleInPrm
      = s.visibleInPrm + l.countP (fun a => truthyOpt (jsGet a prmKey)) := by
  induction l with
  | nil => intro s; simp
  | cons a l ih =>
    intro s
    rw [List.foldl_cons, ih, List.countP_cons]
    show (if truthyOpt (jsGet a prmKey) then s.visibleInPrm + 1 else s.visibleInPrm) + _ = _
    by_cases h : truthyOpt (jsGet a prmKey) = true
    · simp [h]
      omega
    · simp [h]

theorem foldl_summaryStep_earliest (pd : Value → Option Int)
    (l : List Record) : ∀ (s : Summary),
    (List.foldl (summaryStep pd) s l).earliest
      = List.foldl (fun cur a => dateEarliestStep pd cur (jsGet a createdDateKey)) s.earliest l := by
  induction l with
  | nil => intro s; rfl
  | cons a l ih => intro s; rw [List.foldl_cons, ih, List.foldl_cons]; rfl

theorem foldl_summaryStep_latest (pd : Value → Option Int)
    (l : List Record) : ∀ (s : Summary),
    (List.foldl (summaryStep pd) s l).latest
      = List.foldl (fun cur a => dateLatestStep pd cur (jsGet a createdDateKey)) s.latest l := by
  induction l with
  | nil => intro s; rfl
  | cons a l ih => intro s; rw [List.foldl_cons, ih, List.foldl_cons]; rfl

/-! ## Tally mappings -/

theorem tallyLookup_tallyInsert (m : List (List Char × Nat)) (k' k : List Char) :
    tallyLookup (tallyInsert m k') k
      = tallyLookup m k + (if k' = k then 1 else 0) := by
  induction m with
  | nil =>
    by_cases h : k' = k <;> simp [tallyInsert, tallyLookup, h]
  | cons p rest ih =>
    obtain ⟨a, n⟩ := p
    by_cases ha : a = k'
    · subst ha
      simp only [tallyInsert, if_pos rfl, tallyLookup]
      by_cases hk : a = k <;> simp [hk]
    · simp only [tallyInsert, if_neg ha, tallyLookup]
      by_cases hk : a = k
      · subst hk
        have : ¬ k' = a := fun hc => ha hc.symm
        simp [this]
      · simp [hk, ih]

theorem foldl_tallyInsert_lookup (f : Record → List Char) (l : List Record) :
    ∀ (m : List (List Char × Nat)) (k : List Char),
    tallyLookup (List.foldl (fun m a => tallyInsert m (f a)) m l) k
      = tallyLookup m k + (l.map f).countP (fun x => decide (x = k)) := by
  induction l with
  | nil => intro m k; simp
  | cons a l ih =>
    intro m k
    rw [List.foldl_cons, ih, tallyLookup_tallyInsert, List.map_cons, List.countP_cons]
    by_cases h : f a = k
    · simp [h]
      omega
    · simp [h]

theorem sumTally_tallyInsert (m : List (List Char × Nat)) (k : List Char) :
    sumTally (tallyInsert m k) = sumTally m + 1 := by
  induction m with
  | nil => rfl
  | cons p rest ih =>
    obtain ⟨a, n⟩ := p
    by_cases ha : a = k
    · simp [tallyInsert, ha, sumTally]
      omega
    · simp only [tallyInsert, if_neg ha, sumTally, List.map_cons, List.sum_cons]
      have := ih
      simp only [sumTally] at this
      rw [this]
      omega

theorem foldl_tallyInsert_sum (f : Record → List Char) (l : List Record) :
    ∀ (m : List (List Char × Nat)),
    sumTally (List.foldl (fun m a => tallyInsert m (f a)) m l)
      = sumTally m + l.length := by
  induction l with
  | nil => intro m; simp
  | cons a l ih =>
    intro m
    rw [List.foldl_cons, ih, sumTally_tallyInsert, List.length_cons]
    omega

theorem tallyEquiv_of_lookup (m₁ m₂ : List (List Char × Nat))
    (h : ∀ k, tallyLookup m₁ k = tallyLookup m₂ k) :
    tallyEquiv m₁ m₂ = true := by
  unfold tallyEquiv
  rw [List.all_eq_true]
  intro p _
  rw [h p.1]
  simp

/-! ## The date range endpoints -/

theorem truthyDate_eq_none (a : Record)
    (h : truthyOpt (jsGet a createdDateKey) = false) : truthyDate a = none := by
  unfold truthyDate
  match hd : jsGet a createdDateKey with
  | none => rfl
  | some v =>
    rw [hd] at h
    simp only [truthyOpt] at h
    simp [h]

theorem truthyDate_eq_some (a : Record) (v : Value)
    (h1 : jsGet a createdDateKey = some v) (h2 : truthy v = true) :
    truthyDate a = some v := by
  unfold truthyDate
  rw [h1]
  simp [h2]

theorem truthyDates_cons_none (a : Record) (l : List Record)
    (h : truthyDate a = none) : truthyDates (a :: l) = truthyDates l := by
  simp [truthyDates, List.filterMap_cons, h]

theorem truthyDates_cons_some (a : Record) (l : List Record) (v : Value)
    (h : truthyDate a = some v) : truthyDates (a :: l) = v :: truthyDates l := by
  simp [truthyDates, List.filterMap_cons, h]

theorem dateEarliestStep_skip (pd : Value → Option Int) (cur cd : Option Value)
    (h : truthyOpt cd = false) : dateEarliestStep pd cur cd = cur := by
  simp [dateEarliestStep, h]

theorem dateLatestStep_skip (pd : Value → Option Int) (cur cd : Option Value)
    (h : truthyOpt cd = false) : dateLatestStep pd cur cd = cur := by
  simp [dateLatestStep, h]

theorem foldl_earliest_min (pd : Value → Option Int) (l : List Record) :
    ∀ (cur : Option Value),
    (∀ v ∈ truthyDates l, (pd v).isSome = true) →
    (cur = none ∨ ∃ v, cur = some v ∧ truthy v = true ∧ (pd v).isSome = true) →
    optParse pd (List.foldl (fun c a => dateEarliestStep pd c (jsGet a createdDateKey)) cur l)
      = foldMin (optParse pd cur) ((truthyDates l).filterMap pd) := by
  induction l with
  | nil =>
    intro cur _ _
    simp [truthyDates, foldMin]
  | cons a l ih =>
    intro cur hpd hcur
    rw [List.foldl_cons]
    match hd : jsGet a createdDateKey with
    | none =>
      rw [dateEarliestStep_skip pd cur none rfl]
      have ht : truthyDate a = none := truthyDate_eq_none a (by rw [hd]; rfl)
      rw [truthyDates_cons_none a l ht] at hpd ⊢
      exact ih cur hpd hcur
    | some v =>
      by_cases htv : truthy v = true
      · have ht : truthyDate a = some v := truthyDate_eq_some a v hd htv
        have hdl : truthyDates (a :: l) = v :: truthyDates l := truthyDates_cons_some a l v ht
        have hpdl : ∀ w ∈ truthyDates l, (pd w).isSome = true := by
          intro w hw
          exact hpd w (by rw [hdl]; exact List.mem_cons_of_mem v hw)
        have hv : (pd v).isSome = true := hpd v (by rw [hdl]; exact List.mem_cons_self v _)
        obtain ⟨x, hx⟩ := Option.isSome_iff_exists.mp hv
        rw [hdl]
        rw [show (v :: truthyDates l).filterMap pd = x :: (truthyDates l).filterMap pd by
              simp [List.filterMap_cons, hx]]
        rcases hcur with hc | ⟨w, hc, htw, hw⟩
        · subst hc
          have hstep : dateEarliestStep pd none (some v) = some v := by
            simp [dateEarliestStep, truthyOpt, htv]
          rw [hstep, ih (some v) hpdl (Or.inr ⟨v, rfl, htv, hv⟩)]
          simp only [optParse, hx]
          rfl
        · subst hc
          obtain ⟨m, hm⟩ := Option.isSome_iff_exists.mp hw
          by_cases hlt : x < m
          · have hstep : dateEarliestStep pd (some w) (some v) = some v := by
              simp [dateEarliestStep, truthyOpt, htv, htw, optLt, optParse, hx, hm, hlt]
            rw [hstep, ih (some v) hpdl (Or.inr ⟨v, rfl, htv, hv⟩)]
            simp only [optParse, hx, hm]
            rw [show foldMin (some m) (x :: (truthyDates l).filterMap pd)
                  = foldMin (some (min m x)) ((truthyDates l).filterMap pd) from rfl]
            rw [min_eq_right (le_of_lt hlt)]
          · have hstep : dateEarliestStep pd (some w) (some v) = some w := by
              simp [dateEarliestStep, truthyOpt, htv, htw, optLt, optParse, hx, hm, hlt]
            rw [hstep, ih (some w) hpdl (Or.inr ⟨w, rfl, htw, hw⟩)]
            simp only [optParse, hm]
            rw [show foldMin (some m) (x :: (truthyDates l).filterMap pd)
                  = foldMin (some (min m x)) ((truthyDates l).filterMap pd) from rfl]
            rw [min_eq_left (le_of_not_lt hlt)]
      · have htf : truthy v = false := by
          cases hvb : truthy v
          · rfl
          · exact absurd hvb htv
        have ht : truthyDate a = none := by
          unfold truthyDate
          rw [hd]
          simp [htf]
        have hskip : truthyOpt (some v) = false := by
          simp [truthyOpt, htf]
        rw [dateEarliestStep_skip pd cur (some v) hskip]
        rw [truthyDates_cons_none a l ht] at hpd ⊢
        exact ih cur hpd hcur

theorem foldl_latest_max (pd : Value → Option Int) (l : List Record) :
    ∀ (cur : Option Value),
    (∀ v ∈ truthyDates l, (pd v).isSome = true) →
    (cur = none ∨ ∃ v, cur = some v ∧ truthy v = true ∧ (pd v).isSome = true) →
    optParse pd (List.foldl (fun c a => dateLatestStep pd c (jsGet a createdDateKey)) cur l)
      = foldMax (optParse pd cur) ((truthyDates l).filterMap pd) := by
  induction l with
  | nil =>
    intro cur _ _
    simp [truthyDates, foldMax]
  | cons a l ih =>
    intro cur hpd hcur
    rw [List.foldl_cons]
    match hd : jsGet a createdDateKey with
    | none =>
      rw [dateLatestStep_skip pd cur none rfl]
      have ht : truthyDate a = none := truthyDate_eq_none a (by rw [hd]; rfl)
      rw [truthyDates_cons_none a l ht] at hpd ⊢
      exact ih cur hpd hcur
    | some v =>
      by_cases htv : truthy v = true
      · have ht : truthyDate a = some v := truthyDate_eq_some a v hd htv
        have hdl : truthyDates (a :: l) = v :: truthyDates l := truthyDates_cons_some a l v ht
        have hpdl : ∀ w ∈ truthyDates l, (pd w).isSome = true := by
          intro w hw
          exact hpd w (by rw [hdl]; exact List.mem_cons_of_mem v hw)
        have hv : (pd v).isSome = true := hpd v (by rw [hdl]; exact List.mem_cons_self v _)
        obtain ⟨x, hx⟩ := Option.isSome_iff_exists.mp hv
        rw [hdl]
        rw [show (v :: truthyDates l).filterMap pd = x :: (truthyDates l).filterMap pd by
              simp [List.filterMap_cons, hx]]
        rcases hcur with hc | ⟨w, hc, htw, hw⟩
        · subst hc
          have hstep : dateLatestStep pd none (some v) = some v := by
            simp [dateLatestStep, truthyOpt, htv]
          rw [hstep, ih (some v) hpdl (Or.inr ⟨v, rfl, htv, hv⟩)]
          simp only [optParse, hx]
          rfl
        · subst hc
          obtain ⟨m, hm⟩ := Option.isSome_iff_exists.mp hw
          by_cases hgt : m < x
          · have hstep : dateLatestStep pd (some w) (some v) = some v := by
              simp [dateLatestStep, truthyOpt, htv, htw, optGt, optParse, hx, hm, hgt]
            rw [hstep, ih (some v) hpdl (Or.inr ⟨v, rfl, htv, hv⟩)]
            simp only [optParse, hx, hm]
            rw [show foldMax (some m) (x :: (truthyDates l).filterMap pd)
                  = foldMax (some (max m x)) ((truthyDates l).filterMap pd) from rfl]
            rw [max_eq_right (le_of_lt hgt)]
          · have hstep : dateLatestStep pd (some w) (some v) = some w := by
              simp [dateLatestStep, truthyOpt, htv, htw, optGt, optParse, hx, hm, hgt]
            rw [hstep, ih (some w) hpdl (Or.inr ⟨w, rfl, htw, hw⟩)]
            simp only [optParse, hm]
            rw [show foldMax (some m) (x :: (truthyDates l).filterMap pd)
                  = foldMax (some (max m x)) ((truthyDates l).filterMap pd) from rfl]
            rw [max_eq_left (le_of_not_lt hgt)]
      · have htf : truthy v = false := by
          cases hvb : truthy v
          · rfl
          · exact absurd hvb htv
        have ht : truthyDate a = none := by
          unfold truthyDate
          rw [hd]
          simp [htf]
        have hskip : truthyOpt (some v) = false := by
          simp [truthyOpt, htf]
        rw [dateLatestStep_skip pd cur (some v) hskip]
        rw [truthyDates_cons_none a l ht] at hpd ⊢
        exact ih cur hpd hcur

theorem minStep_comm (o : Option Int) (x y : Int) :
    minStep (minStep o x) y = minStep (minStep o y) x := by
  cases o with
  | none => simp [minStep, min_comm]
  | some m =>
    simp only [minStep]
    rw [min_right_comm]

theorem maxStep_comm (o : Option Int) (x y : Int) :
    maxStep (maxStep o x) y = maxStep (maxStep o y) x := by
  cases o with
  | none => simp [maxStep, max_comm]
  | some m =>
    simp only [maxStep]
    rw [max_assoc, max_comm x y, ← max_assoc]

theorem foldMin_perm {l₁ l₂ : List Int} (h : l₁.Perm l₂) :
    ∀ (init : Option Int), foldMin init l₁ = foldMin init l₂ := by
  induction h with
  | nil => intro init; rfl
  | cons x _ ih =>
    intro init
    simp only [foldMin, List.foldl_cons]
    exact ih _
  | swap x y l =>
    intro init
    simp only [foldMin, List.foldl_cons]
    rw [minStep_comm]
  | trans _ _ ih1 ih2 =>
    intro init
    rw [ih1 init, ih2 init]

theorem foldMax_perm {l₁ l₂ : List Int} (h : l₁.Perm l₂) :
    ∀ (init : Option Int), foldMax init l₁ = foldMax init l₂ := by
  induction h with
  | nil => intro init; rfl
  | cons x _ ih =>
    intro init
    simp only [foldMax, List.foldl_cons]
    exact ih _
  | swap x y l =>
    intro init
    simp only [foldMax, List.foldl_cons]
    rw [maxStep_comm]
  | trans _ _ ih1 ih2 =>
    intro init
    rw [ih1 init, ih2 init]

theorem truthyDates_mem_cons (a : Record) (l : List Record) :
    ∀ v, v ∈ truthyDates l → v ∈ truthyDates (a :: l) := by
  intro v hv
  match ht : truthyDate a with
  | none =>
    rw [truthyDates_cons_none a l ht]
    exact hv
  | some w =>
    rw [truthyDates_cons_some a l w ht]
    exact List.mem_cons_of_mem w hv

theorem foldl_earliest_origin (pd : Value → Option Int) (l : List Record) :
    ∀ (cur : Option Value),
    (List.foldl (fun c a => dateEarliestStep pd c (jsGet a createdDateKey)) cur l) = cur
    ∨ ∃ v, (List.foldl (fun c a => dateEarliestStep pd c (jsGet a createdDateKey)) cur l) = some v
        ∧ truthy v = true ∧ v ∈ truthyDates l := by
  induction l with
  | nil => intro cur; exact Or.inl rfl
  | cons a l ih =>
    intro cur
    rw [List.foldl_cons]
    have hstep : dateEarliestStep pd cur (jsGet a createdDateKey) = cur
        ∨ ∃ v, dateEarliestStep pd cur (jsGet a createdDateKey) = some v
            ∧ truthy v = true ∧ v ∈ truthyDates (a :: l) := by
      match hd : jsGet a createdDateKey with
      | none => exact Or.inl (dateEarliestStep_skip pd cur none rfl)
      | some v =>
        by_cases htv : truthy v = true
        · have ht := truthyDate_eq_some a v hd htv
          have hmemv : v ∈ truthyDates (a :: l) := by
            rw [truthyDates_cons_some a l v ht]
            exact List.mem_cons_self v _
          have heq : dateEarliestStep pd cur (some v)
              = if (!truthyOpt cur || optLt (optParse pd (some v)) (optParse pd cur))
                then some v else cur := by
            simp [dateEarliestStep, truthyOpt, htv]
          rw [heq]
          by_cases hc : (!truthyOpt cur || optLt (optParse pd (some v)) (optParse pd cur)) = true
          · rw [if_pos hc]
            exact Or.inr ⟨v, rfl, htv, hmemv⟩
          · rw [if_neg hc]
            exact Or.inl rfl
        · have htf : truthy v = false := by
            cases hvb : truthy v
            · rfl
            · exact absurd hvb htv
          exact Or.inl (dateEarliestStep_skip pd cur (some v) (by simp [truthyOpt, htf]))
    rcases hstep with h | ⟨v, h, htv, hv⟩
    · rw [h]
      rcases ih cur with h2 | ⟨w, h2, htw, hw⟩
      · exact Or.inl h2
      · exact Or.inr ⟨w, h2, htw, truthyDates_mem_cons a l w hw⟩
    · rw [h]
      rcases ih (some v) with h2 | ⟨w, h2, htw, hw⟩
      · exact Or.inr ⟨v, h2, htv, hv⟩
      · exact Or.inr ⟨w, h2, htw, truthyDates_mem_cons a l w hw⟩

theorem foldl_latest_origin (pd : Value → Option Int) (l : List Record) :
    ∀ (cur : Option Value),
    (List.foldl (fun c a => dateLatestStep pd c (jsGet a createdDateKey)) cur l) = cur
    ∨ ∃ v, (List.foldl (fun c a => dateLatestStep pd c (jsGet a createdDateKey)) cur l) = some v
        ∧ truthy v = true ∧ v ∈ truthyDates l := by
  induction l with
  | nil => intro cur; exact Or.inl rfl
  | cons a l ih =>
    intro cur
    rw [List.foldl_cons]
    have hstep : dateLatestStep pd cur (jsGet a createdDateKey) = cur
        ∨ ∃ v, dateLatestStep pd cur (jsGet a createdDateKey) = some v
            ∧ truthy v = true ∧ v ∈ truthyDates (a :: l) := by
      match hd : jsGet a createdDateKey with
      | none => exact Or.inl (dateLatestStep_skip pd cur none rfl)
      | some v =>
        by_cases htv : truthy v = true
        · have ht := truthyDate_eq_some a v hd htv
          have hmemv : v ∈ truthyDates (a :: l) := by
            rw [truthyDates_cons_some a l v ht]
            exact List.mem_cons_self v _
          have heq : dateLatestStep pd cur (some v)
              = if (!truthyOpt cur || optGt (optParse pd (some v)) (optParse pd cur))
                then some v else cur := by
            simp [dateLatestStep, truthyOpt, htv]
          rw [heq]
          by_cases hc : (!truthyOpt cur || optGt (optParse pd (some v)) (optParse pd cur)) = true
          · rw [if_pos hc]
            exact Or.inr ⟨v, rfl, htv, hmemv⟩
          · rw [if_neg hc]
            exact Or.inl rfl
        · have htf : truthy v = false := by
            cases hvb : truthy v
            · rfl
            · exact absurd hvb htv
          exact Or.inl (dateLatestStep_skip pd cur (some v) (by simp [truthyOpt, htf]))
    rcases hstep with h | ⟨v, h, htv, hv⟩
    · rw [h]
      rcases ih cur with h2 | ⟨w, h2, htw, hw⟩
      · exact Or.inl h2
      · exact Or.inr ⟨w, h2, htw, truthyDates_mem_cons a l w hw⟩
    · rw [h]
      rcases ih (some v) with h2 | ⟨w, h2, htw, hw⟩
      · exact Or.inr ⟨v, h2, htv, hv⟩
      · exact Or.inr ⟨w, h2, htw, truthyDates_mem_cons a l w hw⟩

theorem truthyDates_nil_of_falsy (l : List Record)
    (h : ∀ a ∈ l, truthyOpt (jsGet a createdDateKey) = false) :
    truthyDates l = [] := by
  induction l with
  | nil => rfl
  | cons a l ih =>
    have ht : truthyDate a = none :=
      truthyDate_eq_none a (h a (List.mem_cons_self a l))
    rw [truthyDates_cons_none a l ht]
    exact ih (fun b hb => h b (List.mem_cons_of_mem a hb))

/-! ## Bridge lemmas from generateSummary to the characterizations -/

theorem generateSummary_articleTypes_lookup (pd : Value → Option Int) (l : List Record)
    (k : List Char) :
    tallyLookup (generateSummary pd l).articleTypes k
      = (l.map (fun a => jsKey (jsGet a articleTypeKey))).countP (fun x => decide (x = k)) := by
  unfold generateSummary
  rw [foldl_summaryStep_articleTypes]
  have h := foldl_tallyInsert_lookup (fun a => jsKey (jsGet a articleTypeKey)) l [] k
  simpa [tallyLookup] using h

theorem generateSummary_languages_lookup (pd : Value → Option Int) (l : List Record)
    (k : List Char) :
    tallyLookup (generateSummary pd l).languages k
      = (l.map (fun a => jsKey (jsGet a languageKey))).countP (fun x => decide (x = k)) := by
  unfold generateSummary
  rw [foldl_summaryStep_languages]
  have h := foldl_tallyInsert_lookup (fun a => jsKey (jsGet a languageKey)) l [] k
  simpa [tallyLookup] using h

theorem generateSummary_publishStatuses_lookup (pd : Value → Option Int) (l : List Record)
    (k : List Char) :
    tallyLookup (generateSummary pd l).publishStatuses k
      = (l.map (fun a => jsKey (jsGet a publishStatusKey))).countP (fun x => decide (x = k)) := by
  unfold generateSummary
  rw [foldl_summaryStep_publishStatuses]
  have h := foldl_tallyInsert_lookup (fun a => jsKey (jsGet a publishStatusKey)) l [] k
  simpa [tallyLookup] using h

theorem generateSummary_articleTypes_sum (pd : Value → Option Int) (l : List Record) :
    sumTally (generateSummary pd l).articleTypes = l.length := by
  unfold generateSummary
  rw [foldl_summaryStep_articleTypes]
  have h := foldl_tallyInsert_sum (fun a => jsKey (jsGet a articleTypeKey)) l []
  simpa [sumTally] using h

theorem generateSummary_languages_sum (pd : Value → Option Int) (l : List Record) :
    sumTally (generateSummary pd l).languages = l.length := by
  unfold generateSummary
  rw [foldl_summaryStep_languages]
  have h := foldl_tallyInsert_sum (fun a => jsKey (jsGet a languageKey)) l []
  simpa [sumTally] using h

theorem generateSummary_publishStatuses_sum (pd : Value → Option Int) (l : List Record) :
    sumTally (generateSummary pd l).publishStatuses = l.length := by
  unfold generateSummary
  rw [foldl_summaryStep_publishStatuses]
  have h := foldl_tallyInsert_sum (fun a => jsKey (jsGet a publishStatusKey)) l []
  simpa [sumTally] using h

theorem generateSummary_visibleInPkb (pd : Value → Option Int) (l : List Record) :
    (generateSummary pd l).visibleInPkb
      = l.countP (fun a => truthyOpt (jsGet a pkbKey)) := by
  unfold generateSummary
  rw [foldl_summaryStep_visibleInPkb]
  simp

theorem generateSummary_visibleInCsp (pd : Value → Option Int) (l : List Record) :
    (generateSummary pd l).visibleInCsp
      = l.countP (fun a => truthyOpt (jsGet a cspKey)) := by
  unfold generateSummary
  rw [foldl_summaryStep_visibleInCsp]
  simp

theorem generateSummary_visibleInPrm (pd : Value → Option Int) (l : List Record) :
    (generateSummary pd l).visibleInPrm
      = l.countP (fun a => truthyOpt (jsGet a prmKey)) := by
  unfold generateSummary
  rw [foldl_summaryStep_visibleInPrm]
  simp

theorem generateSummary_earliest_eq (pd : Value → Option Int) (l : List Record) :
    (generateSummary pd l).earliest
      = List.foldl (fun c a => dateEarliestStep pd c (jsGet a createdDateKey)) none l := by
  unfold generateSummary
  rw [foldl_summaryStep_earliest]

theorem generateSummary_latest_eq (pd : Value → Option Int) (l : List Record) :
    (generateSummary pd l).latest
      = List.foldl (fun c a => dateLatestStep pd c (jsGet a createdDateKey)) none l := by
  unfold generateSummary
  rw [foldl_summaryStep_latest]

theorem generateSummary_earliest_min (pd : Value → Option Int) (l : List Record)
    (h : ∀ v ∈ truthyDates l, (pd v).isSome = true) :
    optParse pd (generateSummary pd l).earliest
      = foldMin none ((truthyDates l).filterMap pd) := by
  rw [generateSummary_earliest_eq]
  have h2 := foldl_earliest_min pd l none h (Or.inl rfl)
  simpa [optParse] using h2

theorem generateSummary_latest_max (pd : Value → Option Int) (l : List Record)
    (h : ∀ v ∈ truthyDates l, (pd v).isSome = true) :
    optParse pd (generateSummary pd l).latest
      = foldMax none ((truthyDates l).filterMap pd) := by
  rw [generateSummary_latest_eq]
  have h2 := foldl_latest_max pd l none h (Or.inl rfl)
  simpa [optParse] using h2

theorem cellText_ne_null (v : Value) (h : ¬ v = Value.null) :
    cellText (some v) = jsString v := by
  cases v with
  | str s => rfl
  | num n => rfl
  | bool b => rfl
  | null => exact absurd rfl h

/-! ## The claims -/

/-- Claim C8: jsonToCsv applied to an empty record sequence returns
the empty string, with no header line and no rows, and this is not
an error. -/
theorem c8_empty_sequence : jsonToCsv [] = [] := rfl

/-- Claim C10: jsonToCsv applies no escaping to the header row.  For
the field name a-comma-b (which contains a comma) the header line is
the field name joined verbatim, not RFC-4180-quoted, so a standard
parser reads two columns from the header but one column from the
data row. -/
theorem c10_header_not_escaped :
    jsonToCsv ((( ('a' :: ',' :: 'b' :: []), Value.str ('x' :: []) ) :: []) :: [])
      = 'a' :: ',' :: 'b' :: '\n' :: 'x' :: []
    ∧ (parseRow ('a' :: ',' :: 'b' :: [])).length = 2
    ∧ (parseRow (csvRow (('a' :: ',' :: 'b' :: []) :: [])
          ((( ('a' :: ',' :: 'b' :: []), Value.str ('x' :: []) ) :: [])))).length = 1 := by
  refine ⟨?_, ?_, ?_⟩
  · decide
  · decide
  · decide

/-- Claim C1: every record value whose textual form contains a
comma, a double quote or a newline is rendered by jsonToCsv as a
cell wrapped in double quotes with every embedded quote doubled, and
a standard RFC-4180 parse of the rendered row recovers the original
textual values, in particular the original string at that cell's
column. -/
theorem c1_escape_roundtrip (first : Record) (rest : List Record) (a : Record)
    (ha : a ∈ first :: rest) (i : Nat) (k : List Char)
    (hk : (first.map Prod.fst).get? i = some k) (v : Value) (hv : jsGet a k = some v)
    (hspec : (hasChar (jsString v) ',' || hasChar (jsString v) '"'
        || hasChar (jsString v) '\n') = true) :
    jsonToCsv (first :: rest)
      = joinSep ('\n' :: []) (joinSep (',' :: []) (first.map Prod.fst)
          :: (first :: rest).map (fun b => csvRow (first.map Prod.fst) b))
    ∧ csvRow (first.map Prod.fst) a
        ∈ (first :: rest).map (fun b => csvRow (first.map Prod.fst) b)
    ∧ formatCell (jsGet a k) = '"' :: (doubleQuotes (jsString v) ++ ('"' :: []))
    ∧ parseRow (csvRow (first.map Prod.fst) a)
        = (first.map Prod.fst).map (fun h => cellText (jsGet a h))
    ∧ (parseRow (csvRow (first.map Prod.fst) a)).get? i = some (jsString v) := by
  have hnn : ¬ v = Value.null := by
    intro hvn
    rw [hvn] at hspec
    exact absurd hspec (by decide)
  have hne : first.map Prod.fst ≠ [] := by
    intro hnil
    rw [hnil] at hk
    simp at hk
  have hparse : parseRow (csvRow (first.map Prod.fst) a)
      = (first.map Prod.fst).map (fun h => cellText (jsGet a h)) :=
    csvRow_parse (first.map Prod.fst) a hne
  refine ⟨rfl, List.mem_map_of_mem _ ha, ?_, hparse, ?_⟩
  · rw [hv, formatCell_eq, cellText_ne_null v hnn, escapeValue_eq, if_pos hspec]
  · rw [hparse, List.get?_map, hk]
    simp [hv, cellText_ne_null v hnn]

/-- Witness for claim C1 at a concrete record whose single field
value contains a comma. -/
theorem c1_escape_roundtrip_witness :
    formatCell (jsGet ((('t' :: []), Value.str ('x' :: ',' :: 'y' :: [])) :: []) ('t' :: []))
      = '"' :: (doubleQuotes (jsString (Value.str ('x' :: ',' :: 'y' :: []))) ++ ('"' :: []))
    ∧ (parseRow (csvRow (('t' :: []) :: [])
          ((('t' :: []), Value.str ('x' :: ',' :: 'y' :: [])) :: []))).get? 0
        = some (jsString (Value.str ('x' :: ',' :: 'y' :: []))) := by
  have h := c1_escape_roundtrip
    ((('t' :: []), Value.str ('x' :: ',' :: 'y' :: [])) :: []) []
    ((('t' :: []), Value.str ('x' :: ',' :: 'y' :: [])) :: [])
    (List.mem_cons_self _ _) 0 ('t' :: []) (by decide)
    (Value.str ('x' :: ',' :: 'y' :: [])) (by decide) (by decide)
  exact ⟨h.2.2.1, h.2.2.2.2⟩

/-- Claim C4: for a non-empty record sequence, the first record's
field names in their original order form the header row and the
column layout of every data row; a field missing or null in a record
renders as the empty cell; fields absent from the first record never
influence a row (two records agreeing on the first record's fields
render identically, so extra fields are silently dropped). -/
theorem c4_columns_from_first (first : Record) (rest : List Record) :
    jsonToCsv (first :: rest)
      = joinSep ('\n' :: []) (joinSep (',' :: []) (first.map Prod.fst)
          :: (first :: rest).map (fun b => csvRow (first.map Prod.fst) b))
    ∧ (∀ b : Record, csvRow (first.map Prod.fst) b
        = joinSep (',' :: []) ((first.map Prod.fst).map (fun h => formatCell (jsGet b h))))
    ∧ (∀ (b : Record) (h : List Char),
        jsGet b h = none ∨ jsGet b h = some Value.null → formatCell (jsGet b h) = [])
    ∧ (∀ b b' : Record, (∀ h ∈ first.map Prod.fst, jsGet b h = jsGet b' h) →
        csvRow (first.map Prod.fst) b = csvRow (first.map Prod.fst) b') := by
  refine ⟨rfl, fun b => rfl, ?_, ?_⟩
  · intro b h hbh
    rcases hbh with hn | hnull
    · rw [hn]
      rfl
    · rw [hnull]
      rfl
  · intro b b' hagree
    unfold csvRow
    congr 1
    apply List.map_congr_left
    intro h hh
    rw [hagree h hh]

/-- Witness for claim C4: a record lacking one of the first record's
fields renders it as an empty cell, and a record with an extra field
renders the same row as the record without it. -/
theorem c4_columns_from_first_witness :
    formatCell (jsGet ((('a' :: []), Value.str ('2' :: []))
        :: (('c' :: []), Value.str ('z' :: [])) :: []) ('b' :: [])) = []
    ∧ csvRow (((('a' :: []), Value.str ('1' :: [])) :: (('b' :: []), Value.null) :: []).map Prod.fst)
        ((('a' :: []), Value.str ('2' :: [])) :: (('c' :: []), Value.str ('z' :: [])) :: [])
      = csvRow (((('a' :: []), Value.str ('1' :: [])) :: (('b' :: []), Value.null) :: []).map Prod.fst)
        ((('a' :: []), Value.str ('2' :: [])) :: []) := by
  have h := c4_columns_from_first
    ((('a' :: []), Value.str ('1' :: [])) :: (('b' :: []), Value.null) :: [])
    (((('a' :: []), Value.str ('2' :: [])) :: (('c' :: []), Value.str ('z' :: [])) :: []) :: [])
  refine ⟨?_, ?_⟩
  · exact h.2.2.1 _ ('b' :: []) (Or.inl (by decide))
  · exact h.2.2.2 _ _ (by decide)

/-- Claim C7: when the input JSON file is absent the run exits with
a non-zero status and writes neither the CSV file nor the summary
file. -/
theorem c7_missing_input (pd : Value → Option Int) (parse : List Char → Option JsTop) :
    (exportKnowledgeData pd parse none).exitCode ≠ 0
    ∧ (exportKnowledgeData pd parse none).csvOut = none
    ∧ (exportKnowledgeData pd parse none).summaryOut = none := by
  exact ⟨Nat.one_ne_zero, rfl, rfl⟩

/-- Claim C5: when the input file is present but its contents do not
parse as JSON, or parse to a value that is not an array, the run
exits with a non-zero status. -/
theorem c5_malformed_input (pd : Value → Option Int) (parse : List Char → Option JsTop)
    (text : List Char)
    (h : parse text = none
      ∨ ∃ t, parse text = some t ∧ ∀ lr : List Record, t ≠ JsTop.arr lr) :
    (exportKnowledgeData pd parse (some text)).exitCode ≠ 0 := by
  simp only [exportKnowledgeData]
  rcases h with h | ⟨t, ht, harr⟩
  · rw [h]
    simp
  · rw [ht]
    cases t with
    | arr lr => exact absurd rfl (harr lr)
    | nullV => simp [jsonToCsvDyn, generateSummaryDyn]
    | strV s =>
      by_cases hs : s = []
      · simp [jsonToCsvDyn, generateSummaryDyn, hs]
      · simp [jsonToCsvDyn, generateSummaryDyn, hs]
    | numV n =>
      by_cases hn : n = 0
      · simp [jsonToCsvDyn, generateSummaryDyn, hn]
      · simp [jsonToCsvDyn, generateSummaryDyn, hn]
    | boolV b =>
      cases b
      · simp [jsonToCsvDyn, generateSummaryDyn]
      · simp [jsonToCsvDyn, generateSummaryDyn]
    | obj => simp [jsonToCsvDyn, generateSummaryDyn]

/-- Witness for claim C5 at a parser that rejects the input text. -/
theorem c5_malformed_input_witness :
    (exportKnowledgeData pdSample (fun _ => none) (some ('x' :: []))).exitCode ≠ 0 :=
  c5_malformed_input pdSample (fun _ => none) ('x' :: []) (Or.inl rfl)

/-- Claim C6: a record whose categorical field (articleType,
language, publishStatus) is absent or null is tallied under a
literal text bucket key — the coerced property key, which is the
text undefined for an absent field and the text null for a null
field — rather than being skipped: each tally count equals the count
of records whose coerced key is that bucket. -/
theorem c6_undefined_buckets (pd : Value → Option Int) (l : List Record) :
    (∀ k, tallyLookup (generateSummary pd l).articleTypes k
        = (l.map (fun a => jsKey (jsGet a articleTypeKey))).countP (fun x => decide (x = k)))
    ∧ (∀ k, tallyLookup (generateSummary pd l).languages k
        = (l.map (fun a => jsKey (jsGet a languageKey))).countP (fun x => decide (x = k)))
    ∧ (∀ k, tallyLookup (generateSummary pd l).publishStatuses k
        = (l.map (fun a => jsKey (jsGet a publishStatusKey))).countP (fun x => decide (x = k)))
    ∧ jsKey none = "undefined".toList
    ∧ jsKey (some Value.null) = "null".toList := by
  refine ⟨?_, ?_, ?_, rfl, rfl⟩
  · exact generateSummary_articleTypes_lookup pd l
  · exact generateSummary_languages_lookup pd l
  · exact generateSummary_publishStatuses_lookup pd l

/-- Claim C9: in every summary, the counts of each categorical tally
sum to totalArticles (each record contributes exactly one increment
per tally), and each visibility counter is at most totalArticles
(each record contributes at most one increment per counter). -/
theorem c9_tally_invariants (pd : Value → Option Int) (l : List Record) :
    sumTally (generateSummary pd l).articleTypes = (generateSummary pd l).totalArticles
    ∧ sumTally (generateSummary pd l).languages = (generateSummary pd l).totalArticles
    ∧ sumTally (generateSummary pd l).publishStatuses = (generateSummary pd l).totalArticles
    ∧ (generateSummary pd l).visibleInPkb ≤ (generateSummary pd l).totalArticles
    ∧ (generateSummary pd l).visibleInCsp ≤ (generateSummary pd l).totalArticles
    ∧ (generateSummary pd l).visibleInPrm ≤ (generateSummary pd l).totalArticles := by
  rw [generateSummary_totalArticles, generateSummary_articleTypes_sum,
      generateSummary_languages_sum, generateSummary_publishStatuses_sum,
      generateSummary_visibleInPkb, generateSummary_visibleInCsp,
      generateSummary_visibleInPrm]
  exact ⟨rfl, rfl, rfl, List.countP_le_length _, List.countP_le_length _,
    List.countP_le_length _⟩

/-- Counterexample to claim C2 as stated: under a Date parser for
which the one-character string g is unparseable, swapping the two
records changes the resolved earliest instant (an unparseable truthy
first date is retained as endpoint and never replaced, because every
comparison against an invalid date is false). -/
theorem c2_order_counterexample :
    ((((createdDateKey, Value.str ('g' :: [])) :: [])
        :: ((createdDateKey, Value.str ('d' :: 'd' :: [])) :: []) :: []) : List Record).Perm
      ((((createdDateKey, Value.str ('d' :: 'd' :: [])) :: [])
        :: ((createdDateKey, Value.str ('g' :: [])) :: []) :: []))
    ∧ optParse pdSample (generateSummary pdSample
        ((((createdDateKey, Value.str ('g' :: [])) :: [])
          :: ((createdDateKey, Value.str ('d' :: 'd' :: [])) :: []) :: []))).earliest
      ≠ optParse pdSample (generateSummary pdSample
        ((((createdDateKey, Value.str ('d' :: 'd' :: [])) :: [])
          :: ((createdDateKey, Value.str ('g' :: [])) :: []) :: []))).earliest := by
  refine ⟨?_, ?_⟩
  · decide
  · decide

/-- Claim C2 (amended): permuting the record sequence leaves
totalArticles, the three categorical tally mappings (extensionally)
and the three visibility counters unchanged; and provided every
truthy createdDate value is parseable, the resolved min and max
date-range instants are also unchanged.  (Without that proviso even
the resolved instants can depend on order, as the counterexample
shows.) -/
theorem c2_order_independence (pd : Value → Option Int) (l₁ l₂ : List Record)
    (hp : l₁.Perm l₂) :
    (generateSummary pd l₁).totalArticles = (generateSummary pd l₂).totalArticles
    ∧ tallyEquiv (generateSummary pd l₁).articleTypes (generateSummary pd l₂).articleTypes = true
    ∧ tallyEquiv (generateSummary pd l₁).languages (generateSummary pd l₂).languages = true
    ∧ tallyEquiv (generateSummary pd l₁).publishStatuses (generateSummary pd l₂).publishStatuses = true
    ∧ (generateSummary pd l₁).visibleInPkb = (generateSummary pd l₂).visibleInPkb
    ∧ (generateSummary pd l₁).visibleInCsp = (generateSummary pd l₂).visibleInCsp
    ∧ (generateSummary pd l₁).visibleInPrm = (generateSummary pd l₂).visibleInPrm
    ∧ ((∀ v ∈ truthyDates l₁, (pd v).isSome = true) →
        optParse pd (generateSummary pd l₁).earliest
          = optParse pd (generateSummary pd l₂).earliest
        ∧ optParse pd (generateSummary pd l₁).latest
          = optParse pd (generateSummary pd l₂).latest) := by
  have hdates : (truthyDates l₁).Perm (truthyDates l₂) := hp.filterMap truthyDate
  refine ⟨?_, ?_, ?_, ?_, ?_, ?_, ?_, ?_⟩
  · rw [generateSummary_totalArticles, generateSummary_totalArticles]
    exact hp.length_eq
  · apply tallyEquiv_of_lookup
    intro k
    rw [generateSummary_articleTypes_lookup, generateSummary_articleTypes_lookup]
    exact (hp.map _).countP_eq _
  · apply tallyEquiv_of_lookup
    intro k
    rw [generateSummary_languages_lookup, generateSummary_languages_lookup]
    exact (hp.map _).countP_eq _
  · apply tallyEquiv_of_lookup
    intro k
    rw [generateSummary_publishStatuses_lookup, generateSummary_publishStatuses_lookup]
    exact (hp.map _).countP_eq _
  · rw [generateSummary_visibleInPkb, generateSummary_visibleInPkb]
    exact hp.countP_eq _
  · rw [generateSummary_visibleInCsp, generateSummary_visibleInCsp]
    exact hp.countP_eq _
  · rw [generateSummary_visibleInPrm, generateSummary_visibleInPrm]
    exact hp.countP_eq _
  · intro hpd
    have hpd₂ : ∀ v ∈ truthyDates l₂, (pd v).isSome = true := by
      intro v hv
      exact hpd v (hdates.mem_iff.mpr hv)
    constructor
    · rw [generateSummary_earliest_min pd l₁ hpd, generateSummary_earliest_min pd l₂ hpd₂]
      exact foldMin_perm (hdates.filterMap pd) none
    · rw [generateSummary_latest_max pd l₁ hpd, generateSummary_latest_max pd l₂ hpd₂]
      exact foldMax_perm (hdates.filterMap pd) none

/-- Witness for claim C2 at a concrete permutation of two records
with parseable dates. -/
theorem c2_order_independence_witness :
    (generateSummary pdSample ((((createdDateKey, Value.str ('d' :: [])) :: [])
        :: ((createdDateKey, Value.str ('d' :: 'd' :: [])) :: []) :: []))).totalArticles
      = (generateSummary pdSample ((((createdDateKey, Value.str ('d' :: 'd' :: [])) :: [])
        :: ((createdDateKey, Value.str ('d' :: [])) :: []) :: []))).totalArticles
    ∧ optParse pdSample (generateSummary pdSample
        ((((createdDateKey, Value.str ('d' :: [])) :: [])
          :: ((createdDateKey, Value.str ('d' :: 'd' :: [])) :: []) :: []))).earliest
      = optParse pdSample (generateSummary pdSample
        ((((createdDateKey, Value.str ('d' :: 'd' :: [])) :: [])
          :: ((createdDateKey, Value.str ('d' :: [])) :: []) :: []))).earliest := by
  have h := c2_order_independence pdSample
    ((((createdDateKey, Value.str ('d' :: [])) :: [])
      :: ((createdDateKey, Value.str ('d' :: 'd' :: [])) :: []) :: []))
    ((((createdDateKey, Value.str ('d' :: 'd' :: [])) :: [])
      :: ((createdDateKey, Value.str ('d' :: [])) :: []) :: []))
    (by decide)
  exact ⟨h.1, (h.2.2.2.2.2.2.2 (by decide)).1⟩

/-- Counterexample to claim C3 as stated: with a Date parser for
which the one-character string g never parses, a single record whose
createdDate is g contributes no valid date, yet both endpoints are
set to that unparseable value instead of remaining null. -/
theorem c3_skip_counterexample :
    (truthyDates ((((createdDateKey, Value.str ('g' :: [])) :: []) :: []) : List Record)).filterMap pdSample
      = ([] : List Int)
    ∧ (generateSummary pdSample (((createdDateKey, Value.str ('g' :: [])) :: []) :: [])).earliest
        = some (Value.str ('g' :: []))
    ∧ (generateSummary pdSample (((createdDateKey, Value.str ('g' :: [])) :: []) :: [])).latest
        = some (Value.str ('g' :: [])) := by
  refine ⟨?_, ?_, ?_⟩
  · decide
  · decide
  · decide

/-- Claim C3 (amended): the date range endpoints always originate
from some record's truthy createdDate value, so absent or falsy
values are skipped and never become endpoints; if no record has a
truthy createdDate both endpoints remain null; and when every truthy
createdDate value parses, the resolved endpoints are exactly the
minimum and maximum parsed timestamps.  (A non-parseable truthy
value is only skipped once a parseable endpoint comparison can
reject it; as the counterexample shows, the first truthy value
becomes the endpoint even when unparseable.) -/
theorem c3_date_range (pd : Value → Option Int) (l : List Record) :
    ((∀ a ∈ l, truthyOpt (jsGet a createdDateKey) = false) →
      (generateSummary pd l).earliest = none ∧ (generateSummary pd l).latest = none)
    ∧ ((generateSummary pd l).earliest = none
        ∨ ∃ v, (generateSummary pd l).earliest = some v
            ∧ truthy v = true ∧ v ∈ truthyDates l)
    ∧ ((generateSummary pd l).latest = none
        ∨ ∃ v, (generateSummary pd l).latest = some v
            ∧ truthy v = true ∧ v ∈ truthyDates l)
    ∧ ((∀ v ∈ truthyDates l, (pd v).isSome = true) →
        optParse pd (generateSummary pd l).earliest
          = foldMin none ((truthyDates l).filterMap pd)
        ∧ optParse pd (generateSummary pd l).latest
          = foldMax none ((truthyDates l).filterMap pd)) := by
  refine ⟨?_, ?_, ?_, ?_⟩
  · intro hfalsy
    have hnil := truthyDates_nil_of_falsy l hfalsy
    constructor
    · rw [generateSummary_earliest_eq]
      rcases foldl_earliest_origin pd l none with h0 | ⟨v, _, _, hv⟩
      · exact h0
      · rw [hnil] at hv
        exact absurd hv (List.not_mem_nil v)
    · rw [generateSummary_latest_eq]
      rcases foldl_latest_origin pd l none with h0 | ⟨v, _, _, hv⟩
      · exact h0
      · rw [hnil] at hv
        exact absurd hv (List.not_mem_nil v)
  · rw [generateSummary_earliest_eq]
    exact foldl_earliest_origin pd l none
  · rw [generateSummary_latest_eq]
    exact foldl_latest_origin pd l none
  · intro hpd
    exact ⟨generateSummary_earliest_min pd l hpd, generateSummary_latest_max pd l hpd⟩

/-- Witness for claim C3: a record sequence with no truthy
createdDate leaves both endpoints null. -/
theorem c3_date_range_witness :
    (generateSummary pdSample (([] : Record) :: [])).earliest = none
    ∧ (generateSummary pdSample (([] : Record) :: [])).latest = none :=
  (c3_date_range pdSample (([] : Record) :: [])).1 (by decide)
